import Mathlib

/-!
# Verification of the media-processor analysis and plan-building pipeline

A shallow embedding in Lean 4 of the pure decision logic of the
`media-processor` repository (Go): the audio codec-support predicate, the
pixel-format catalog parser, the media analyzer, the two ffmpeg plan
builders, and the effectful proxy / audio-remediation workflows (modelled
as explicit state passing over an abstract filesystem world).

Machine integers of the Go source are modelled as `Int`/`Nat` (none of the
embedded arithmetic can overflow in scope), strings as Lean `String`
(= lists of characters), and fallible operations as `Option`.
-/

namespace MediaProcessor

/-! ## Go string primitives

`strings.Contains`, `strings.TrimSuffix`, `strings.Split` and
`strconv.Atoi` as used by the source. -/

/-- `listPrefixOf p l` is true iff `p` is a prefix of `l`
(character-by-character comparison, as Go substring search does). -/
def listPrefixOf : List Char → List Char → Bool
  | [], _ => true
  | _ :: _, [] => false
  | a :: as, b :: bs => a = b && listPrefixOf as bs

/-- `listHasSub p l` is true iff `p` occurs contiguously inside `l`. -/
def listHasSub (pat : List Char) : List Char → Bool
  | [] => listPrefixOf pat []
  | c :: rest => listPrefixOf pat (c :: rest) || listHasSub pat rest

/-- Go `strings.Contains(s, pat)`: `pat` occurs as a substring of `s`. -/
def containsSubstr (s pat : String) : Bool :=
  listHasSub pat.data s.data

/-- Go `strings.TrimSuffix(s, suffix)`: drop `suffix` when `s` ends with it. -/
def trimSuffix (s suffix : String) : String :=
  if suffix.data <:+ s.data then
    String.mk (s.data.take (s.data.length - suffix.data.length))
  else s

/-- Go `strings.Split(s, sep)` for a single-character separator (the only
shape the source uses: `"\n"` and `"-"`): the list of (possibly empty)
chunks between occurrences of `sep`; never empty. -/
def splitOnChar (sep : Char) : List Char → List (List Char)
  | [] => [[]]
  | c :: rest =>
    let r := splitOnChar sep rest
    if c == sep then [] :: r
    else
      match r with
      | [] => [[c]]
      | h :: t => (c :: h) :: t

/-- `splitOnChar` on strings. -/
def goSplit (s : String) (sep : Char) : List String :=
  (splitOnChar sep s.data).map String.mk

/-- Go `strconv.Atoi`: optional sign followed by at least one decimal digit
(the source never feeds it numbers outside machine range, so overflow is
not modelled). `none` is Go's non-nil error. -/
def goAtoi (s : String) : Option Int :=
  let signDigits : Int × List Char :=
    match s.data with
    | '+' :: rest => (1, rest)
    | '-' :: rest => (-1, rest)
    | l => (1, l)
  if signDigits.2 = [] then none
  else if signDigits.2.all Char.isDigit then
    some (signDigits.1 *
      (signDigits.2.foldl (fun acc c => acc * 10 + (c.toNat - '0'.toNat)) 0 : Nat))
  else none

/-! ## Audio codec support

`IsAudioCodecSupported` of `pkg/media/info.go` (the `isAudioCodecSupported`
in `main.go` is the same code verbatim). -/

/-- Go `IsAudioCodecSupported`: a `switch` that first tests
`strings.Contains(codecName, "pcm_")`, then membership in the fixed
supported set, else false. -/
def isAudioCodecSupported (codecName : String) : Bool :=
  if containsSubstr codecName "pcm_" then true
  else if (["mp3", "opus", "flac", "ac3"] : List String).contains codecName then true
  else false

/-! Helper lemmas relating the executable substring test to the
mathematical substring relation. -/

theorem listPrefixOf_iff (p l : List Char) : listPrefixOf p l = true ↔ p <+: l := by
  induction p generalizing l with
  | nil => simp [listPrefixOf]
  | cons a as ih =>
    cases l with
    | nil => simp [listPrefixOf]
    | cons b bs =>
      simp [listPrefixOf, List.cons_prefix_cons, ih, and_comm]

theorem listHasSub_iff (l p : List Char) : listHasSub p l = true ↔ p <:+: l := by
  induction l with
  | nil => simp [listHasSub, listPrefixOf_iff]
  | cons c rest ih =>
    simp [listHasSub, listPrefixOf_iff, ih, List.infix_cons_iff]

theorem containsSubstr_iff (s pat : String) :
    containsSubstr s pat = true ↔ pat.data <:+: s.data :=
  listHasSub_iff s.data pat.data

theorem isAudioCodecSupported_eq (s : String) :
    isAudioCodecSupported s =
      (containsSubstr s "pcm_" || s == "mp3" || s == "opus" || s == "flac" || s == "ac3") := by
  unfold isAudioCodecSupported
  cases h : containsSubstr s "pcm_" <;>
    cases h2 : (["mp3", "opus", "flac", "ac3"] : List String).contains s <;>
      simp_all [List.contains_cons, or_assoc]

/-- C1: the audio codec-support predicate returns true iff the codec name
contains the substring `"pcm_"` or is exactly one of `"mp3"`, `"opus"`,
`"flac"`, `"ac3"`; in particular it accepts `"pcm_s16le"`, `"mp3"`,
`"opus"`, `"flac"`, `"ac3"`, `"pcm_anything"` and rejects `"aac"`. -/
theorem isAudioCodecSupported_spec :
    (∀ s : String, isAudioCodecSupported s = true ↔
      ("pcm_".data <:+: s.data ∨ s = "mp3" ∨ s = "opus" ∨ s = "flac" ∨ s = "ac3"))
    ∧ isAudioCodecSupported "pcm_s16le" = true
    ∧ isAudioCodecSupported "mp3" = true
    ∧ isAudioCodecSupported "opus" = true
    ∧ isAudioCodecSupported "flac" = true
    ∧ isAudioCodecSupported "ac3" = true
    ∧ isAudioCodecSupported "pcm_anything" = true
    ∧ isAudioCodecSupported "aac" = false := by
  refine ⟨?_, by decide, by decide, by decide, by decide, by decide, by decide, by decide⟩
  intro s
  rw [isAudioCodecSupported_eq]
  simp only [Bool.or_eq_true, beq_iff_eq, containsSubstr_iff]
  tauto

/-! ## Go `path/filepath` primitives (Unix rules, as the source runs on Linux)

`Clean`, `Base`, `Dir`, `Ext` and variadic `Join`, following the lexical
algorithms of Go's standard library. -/

/-- One pass of Go `path.Clean`'s element processing: skip empty and `"."`
elements; on `".."` pop the last kept element unless the kept stack is
empty (then keep `".."` for relative paths, drop it for rooted ones) or
its top is itself `".."`. The accumulator is kept reversed. -/
def cleanParts (rooted : Bool) : List String → List String → List String
  | [], acc => acc.reverse
  | p :: rest, acc =>
    if p = "" ∨ p = "." then cleanParts rooted rest acc
    else if p = ".." then
      match acc with
      | [] => if rooted then cleanParts rooted rest [] else cleanParts rooted rest [".."]
      | top :: acc' =>
        if top = ".." then cleanParts rooted rest (p :: top :: acc')
        else cleanParts rooted rest acc'
    else cleanParts rooted rest (p :: acc)

/-- Go `filepath.Clean` (Unix): shortest lexically-equivalent path. -/
def cleanPath (p : String) : String :=
  if p = "" then "."
  else
    let rooted := p.startsWith "/"
    let parts := cleanParts rooted (p.splitOn "/") []
    let joined := String.intercalate "/" parts
    if rooted then (if joined = "" then "/" else "/" ++ joined)
    else (if joined = "" then "." else joined)

/-- Go `filepath.Base` (Unix): last element of the path after dropping
trailing slashes; `"."` for the empty path, `"/"` for all-slash paths. -/
def basePath (p : String) : String :=
  if p = "" then "."
  else
    let stripped := p.data.reverse.dropWhile (fun c => c == '/')
    let name := stripped.takeWhile (fun c => c != '/')
    if name = [] then "/" else String.mk name.reverse

/-- Go `filepath.Dir` (Unix): `Clean` of everything up to and including the
final slash; `"."` when the path holds no slash. -/
def dirPath (p : String) : String :=
  cleanPath (String.mk (p.data.reverse.dropWhile (fun c => c != '/')).reverse)

/-- Go `filepath.Ext`: scan backwards until a slash; on the first dot,
return the suffix from that dot; empty when no dot is found. -/
def extName (p : String) : String :=
  let rev := p.data.reverse
  let tail := rev.takeWhile (fun c => (c != '/') && (c != '.'))
  match rev.drop tail.length with
  | '.' :: _ => String.mk ('.' :: tail.reverse)
  | _ => ""

/-- Go variadic `filepath.Join`: skip leading empty elements, join the rest
with `"/"` and `Clean` the result; all-empty input yields `""`. -/
def joinPaths (elems : List String) : String :=
  let rest := elems.dropWhile (fun e => e = "")
  if rest.isEmpty then "" else cleanPath (String.intercalate "/" rest)

/-! ## Data model

`MediaInfo` mirrors the ffprobe JSON decoded by `pkg/media/info.go`
(`main.go` declares the identical `mediaInfo` struct). String-typed
numeric fields stay strings, exactly as in the Go struct. -/

/-- Container-level metadata (`Format` sub-struct). -/
structure MediaFormat where
  filePath : String
  duration : String
  bitrate : String
deriving DecidableEq, Repr

/-- One elementary stream (`Streams` element). -/
structure MediaStream where
  index : Int
  codecType : String
  codecName : String
  codecProfile : String
  width : Int
  height : Int
  bitrate : String
  pixelFormat : String
deriving DecidableEq, Repr

/-- Decoded ffprobe output. -/
structure MediaInfo where
  format : MediaFormat
  streams : List MediaStream
deriving DecidableEq, Repr

/-- `media.Properties` / `main.go`'s `mediaProperties`: the reduced
decision record. Go zero values are the defaults. -/
structure MediaProperties where
  hasVideoStream : Bool := false
  hasAudioStream : Bool := false
  isVertical : Bool := false
  unsupportedAudioFormat : Bool := false
  highestBitDepth : Int := 0
deriving DecidableEq, Repr

/-! ## Media analyzer

`AnalyzeMediaInfo` of `pkg/media/info.go` (identical to `main.go`'s
`analyzeMediaInfo`). The per-stream bit-depth resolution calls
`GetBitDepth`, which shells out to `ffmpeg -pix_fmts`; that external
lookup is abstracted as an oracle `resolve : String → Option Int`
(`none` = the Go error case, which the analyzer replaces by the
default depth 8). -/

/-- The body of the `for _, stream := range info.Streams` loop. -/
def analyzeStep (resolve : String → Option Int) (props : MediaProperties)
    (stream : MediaStream) : MediaProperties :=
  let props :=
    if stream.codecType = "video" then
      let bitDepth := (resolve stream.pixelFormat).getD 8
      { props with
        hasVideoStream := true
        highestBitDepth :=
          if bitDepth > props.highestBitDepth then bitDepth else props.highestBitDepth
        isVertical := if stream.width > stream.height then false else true }
    else props
  if stream.codecType = "audio" then
    { props with
      hasAudioStream := true
      unsupportedAudioFormat := !isAudioCodecSupported stream.codecName }
  else props

/-- Go `AnalyzeMediaInfo`: left fold of the loop body over the streams,
starting from the zero-valued `Properties`. -/
def AnalyzeMediaInfo (resolve : String → Option Int) (info : MediaInfo) : MediaProperties :=
  info.streams.foldl (analyzeStep resolve) {}

/-- The last stream of kind `"video"` in stream order (the one whose
dimensions the loop's last overwrite of `isVertical` came from). -/
def lastVideoStream (streams : List MediaStream) : Option MediaStream :=
  streams.foldl (fun acc s => if s.codecType = "video" then some s else acc) none

/-! ### Analyzer lemmas -/

theorem analyzeStep_highestBitDepth (resolve : String → Option Int)
    (p : MediaProperties) (s : MediaStream) :
    (analyzeStep resolve p s).highestBitDepth =
      if s.codecType = "video" then
        (if (resolve s.pixelFormat).getD 8 > p.highestBitDepth
         then (resolve s.pixelFormat).getD 8 else p.highestBitDepth)
      else p.highestBitDepth := by
  unfold analyzeStep
  by_cases hv : s.codecType = "video"
  · have ha : ¬ s.codecType = "audio" := by simp [hv]
    simp [hv, ha]
  · by_cases ha : s.codecType = "audio" <;> simp [hv, ha]

theorem analyzeStep_highestBitDepth_nonvideo (resolve : String → Option Int)
    (p : MediaProperties) (s : MediaStream) (h : s.codecType ≠ "video") :
    (analyzeStep resolve p s).highestBitDepth = p.highestBitDepth := by
  rw [analyzeStep_highestBitDepth, if_neg h]

theorem analyzeStep_highestBitDepth_mono (resolve : String → Option Int)
    (p : MediaProperties) (s : MediaStream) :
    p.highestBitDepth ≤ (analyzeStep resolve p s).highestBitDepth := by
  rw [analyzeStep_highestBitDepth]
  split
  · split <;> omega
  · exact le_refl _

theorem analyzeStep_highestBitDepth_video (resolve : String → Option Int)
    (p : MediaProperties) (s : MediaStream) (h : s.codecType = "video")
    (hres : ∀ pf d, resolve pf = some d → 8 ≤ d) :
    8 ≤ (analyzeStep resolve p s).highestBitDepth := by
  have hbd : 8 ≤ (resolve s.pixelFormat).getD 8 := by
    cases hr : resolve s.pixelFormat with
    | none => simp
    | some d => simpa using hres s.pixelFormat d hr
  rw [analyzeStep_highestBitDepth, if_pos h]
  split <;> omega

theorem foldl_analyzeStep_highestBitDepth_nonvideo (resolve : String → Option Int)
    (l : List MediaStream) (p : MediaProperties)
    (h : ∀ s ∈ l, s.codecType ≠ "video") :
    (l.foldl (analyzeStep resolve) p).highestBitDepth = p.highestBitDepth := by
  induction l generalizing p with
  | nil => rfl
  | cons a t ih =>
    have := ih (analyzeStep resolve p a) (fun s hs => h s (List.mem_cons_of_mem a hs))
    rw [List.foldl_cons, this,
      analyzeStep_highestBitDepth_nonvideo resolve p a (h a (List.mem_cons_self a t))]

theorem foldl_analyzeStep_highestBitDepth_mono (resolve : String → Option Int)
    (l : List MediaStream) (p : MediaProperties) :
    p.highestBitDepth ≤ (l.foldl (analyzeStep resolve) p).highestBitDepth := by
  induction l generalizing p with
  | nil => exact le_refl _
  | cons a t ih =>
    calc p.highestBitDepth ≤ (analyzeStep resolve p a).highestBitDepth :=
          analyzeStep_highestBitDepth_mono resolve p a
      _ ≤ _ := ih (analyzeStep resolve p a)

theorem foldl_analyzeStep_highestBitDepth_video (resolve : String → Option Int)
    (l : List MediaStream) (p : MediaProperties)
    (h : ∃ s ∈ l, s.codecType = "video")
    (hres : ∀ pf d, resolve pf = some d → 8 ≤ d) :
    8 ≤ (l.foldl (analyzeStep resolve) p).highestBitDepth := by
  induction l generalizing p with
  | nil => simp at h
  | cons a t ih =>
    rw [List.foldl_cons]
    rcases h with ⟨s, hs, hvid⟩
    rcases List.mem_cons.mp hs with heq | hmem
    · subst heq
      calc (8 : Int) ≤ (analyzeStep resolve p s).highestBitDepth :=
            analyzeStep_highestBitDepth_video resolve p s hvid hres
        _ ≤ _ := foldl_analyzeStep_highestBitDepth_mono resolve t _
    · exact ih _ ⟨s, hmem, hvid⟩

/-- A probe result with a single video stream, used to exhibit that a
successful catalog resolution below 8 (e.g. the 1-bit `monow` format)
drives `highestBitDepth` below 8. -/
def infoSingleVideo : MediaInfo :=
  { format := { filePath := "/watch/clip.mp4", duration := "1.0", bitrate := "1000" }
    streams := [{ index := 0, codecType := "video", codecName := "rawvideo",
                  codecProfile := "", width := 16, height := 16, bitrate := "",
                  pixelFormat := "monow" }] }

/-- C3 counterexample: with a resolver that successfully resolves the
pixel format to depth 1, the analyzer reports a video stream but a
`highestBitDepth` of 1, refuting `highestBitDepth ≥ 8` for every
resolution outcome. -/
theorem analyzeMediaInfo_bitDepth_counterexample :
    (AnalyzeMediaInfo (fun _ => some 1) infoSingleVideo).hasVideoStream = true ∧
    ¬ (8 ≤ (AnalyzeMediaInfo (fun _ => some 1) infoSingleVideo).highestBitDepth) := by
  decide

/-- C3 amended: `highestBitDepth = 0` when no video stream exists; and
`highestBitDepth ≥ 8` once at least one video stream is present, provided
every successful per-stream resolution returns a depth of at least 8 (in
particular whenever every resolution fails and defaults to 8). -/
theorem analyzeMediaInfo_highestBitDepth_invariant
    (resolve : String → Option Int) (info : MediaInfo) :
    ((∀ s ∈ info.streams, s.codecType ≠ "video") →
      (AnalyzeMediaInfo resolve info).highestBitDepth = 0) ∧
    ((∃ s ∈ info.streams, s.codecType = "video") →
      (∀ pf d, resolve pf = some d → 8 ≤ d) →
      8 ≤ (AnalyzeMediaInfo resolve info).highestBitDepth) :=
  ⟨fun h => foldl_analyzeStep_highestBitDepth_nonvideo resolve info.streams {} h,
   fun h hres => foldl_analyzeStep_highestBitDepth_video resolve info.streams {} h hres⟩

/-- A probe result with a single audio stream and no video stream. -/
def infoAudioOnly : MediaInfo :=
  { format := { filePath := "/watch/sound.wav", duration := "3.0", bitrate := "1411" }
    streams := [{ index := 0, codecType := "audio", codecName := "flac",
                  codecProfile := "", width := 0, height := 0, bitrate := "",
                  pixelFormat := "" }] }

/-- C3 amended, witness: a resolver that fails on every lookup, on a
one-video-stream file, yields `highestBitDepth ≥ 8`; a file with only an
audio stream yields `0`. -/
theorem analyzeMediaInfo_highestBitDepth_invariant_witness :
    (AnalyzeMediaInfo (fun _ => none) infoAudioOnly).highestBitDepth = 0 ∧
    8 ≤ (AnalyzeMediaInfo (fun _ => none) infoSingleVideo).highestBitDepth :=
  ⟨(analyzeMediaInfo_highestBitDepth_invariant (fun _ => none) infoAudioOnly).1
      (by intro s hs; fin_cases hs; decide),
   (analyzeMediaInfo_highestBitDepth_invariant (fun _ => none) infoSingleVideo).2
      ⟨{ index := 0, codecType := "video", codecName := "rawvideo", codecProfile := "",
         width := 16, height := 16, bitrate := "", pixelFormat := "monow" },
       by decide, rfl⟩
      (fun pf d h => by simp at h)⟩

/-! ### Orientation: last video stream wins -/

theorem analyzeStep_isVertical (resolve : String → Option Int)
    (p : MediaProperties) (s : MediaStream) :
    (analyzeStep resolve p s).isVertical =
      if s.codecType = "video" then (if s.width > s.height then false else true)
      else p.isVertical := by
  unfold analyzeStep
  by_cases hv : s.codecType = "video"
  · have ha : ¬ s.codecType = "audio" := by simp [hv]
    simp [hv, ha]
  · by_cases ha : s.codecType = "audio" <;> simp [hv, ha]

theorem foldl_pickVideo_acc (l : List MediaStream) (a : Option MediaStream) :
    l.foldl (fun acc s => if s.codecType = "video" then some s else acc) a =
      (lastVideoStream l).or a := by
  induction l generalizing a with
  | nil => simp [lastVideoStream]
  | cons h t ih =>
    show List.foldl _ (if h.codecType = "video" then some h else a) t = _
    rw [ih]
    have : lastVideoStream (h :: t) =
        (lastVideoStream t).or (if h.codecType = "video" then some h else none) := by
      show List.foldl _ (if h.codecType = "video" then some h else none) t = _
      rw [ih]
    rw [this]
    cases lastVideoStream t with
    | none => by_cases hv : h.codecType = "video" <;> simp [hv]
    | some s => simp

theorem foldl_analyzeStep_isVertical (resolve : String → Option Int)
    (l : List MediaStream) (p : MediaProperties) :
    (l.foldl (analyzeStep resolve) p).isVertical =
      match lastVideoStream l with
      | some s => decide (s.width ≤ s.height)
      | none => p.isVertical := by
  induction l generalizing p with
  | nil => rfl
  | cons h t ih =>
    rw [List.foldl_cons, ih]
    have hlast : lastVideoStream (h :: t) =
        (lastVideoStream t).or (if h.codecType = "video" then some h else none) := by
      show List.foldl _ (if h.codecType = "video" then some h else none) t = _
      rw [foldl_pickVideo_acc]
    rw [hlast]
    cases lastVideoStream t with
    | some s => simp
    | none =>
      by_cases hv : h.codecType = "video"
      · simp only [hv, if_true, Option.none_or]
        rw [analyzeStep_isVertical, if_pos hv]
        by_cases hw : h.width > h.height
        · simp [hw]
          try omega
        · simp [hw]
          try omega
      · simp only [hv, if_false, Option.none_or]
        rw [analyzeStep_isVertical, if_neg hv]

/-- C4: once a video stream exists, `isVertical` is `height ≥ width`
evaluated on the last video stream in stream order (so a square last
video stream yields `true`, and earlier video streams are irrelevant). -/
theorem analyzeMediaInfo_isVertical_lastVideo
    (resolve : String → Option Int) (info : MediaInfo) (s : MediaStream)
    (h : lastVideoStream info.streams = some s) :
    ((AnalyzeMediaInfo resolve info).isVertical = true ↔ s.height ≥ s.width) := by
  unfold AnalyzeMediaInfo
  rw [foldl_analyzeStep_isVertical, h]
  simp [ge_iff_le]

/-- Probe result with two video streams: a horizontal one first, a square
one last; the analyzer's verdict must come from the square one. -/
def infoTwoVideos : MediaInfo :=
  { format := { filePath := "/watch/two.mp4", duration := "2.0", bitrate := "2000" }
    streams :=
      [{ index := 0, codecType := "video", codecName := "h264", codecProfile := "High",
         width := 1920, height := 1080, bitrate := "", pixelFormat := "yuv420p" },
       { index := 1, codecType := "video", codecName := "h264", codecProfile := "High",
         width := 1080, height := 1080, bitrate := "", pixelFormat := "yuv420p" }] }

/-- C4 witness: on a file whose last video stream is square (1080×1080,
after an earlier 1920×1080 stream), the analyzer reports `isVertical`. -/
theorem analyzeMediaInfo_isVertical_lastVideo_witness :
    (AnalyzeMediaInfo (fun _ => none) infoTwoVideos).isVertical = true ↔
      (1080 : Int) ≥ (1080 : Int) :=
  analyzeMediaInfo_isVertical_lastVideo (fun _ => none) infoTwoVideos
    { index := 1, codecType := "video", codecName := "h264", codecProfile := "High",
      width := 1080, height := 1080, bitrate := "", pixelFormat := "yuv420p" }
    (by decide)

/-! ## Transcode plan builders

`CreateProxyCommand` / `CreateConvertedOriginalCommand` of `pkg/ffmpeg`
and the inline `main.go` variant `createFfmpegCommandForProxy`. Each `++`
segment mirrors one `cmd = append(cmd, ...)` statement of the source. -/

/-- `pkg/ffmpeg`'s `UseHardwareAcceleration` constant. -/
def UseHardwareAcceleration : Bool := true

/-- `main.go`'s `useHwaccel` constant. -/
def useHwaccel : Bool := true

/-- `pkg/ffmpeg.CreateProxyCommand`. -/
def CreateProxyCommand (filePath proxyFilePath : String)
    (props : MediaProperties) : List String :=
  ["ffmpeg", "-y", "-hide_banner", "-loglevel", "error"]
  ++ (if UseHardwareAcceleration then ["-hwaccel", "cuda"] else [])
  ++ ["-i", filePath]
  ++ (if props.hasVideoStream then
        (if UseHardwareAcceleration then ["-c:v", "h264_nvenc"] else ["-c:v", "libx264"])
        ++ (if props.highestBitDepth > 8 then ["-pix_fmt", "yuv420p"] else [])
        ++ ["-maxrate", "7M", "-preset", "default"]
        ++ (if props.isVertical then ["-vf", "scale=540:-2"] else ["-vf", "scale=960:-2"])
      else [])
  ++ (if props.hasAudioStream then
        (if props.unsupportedAudioFormat then ["-c:a", "pcm_s16le"] else [])
      else [])
  ++ [proxyFilePath]

/-- `main.go`'s `createFfmpegCommandForProxy` (in-tree duplicate of
`CreateProxyCommand` with a 6M rate ceiling and the `fast` preset). -/
def createFfmpegCommandForProxy (filePath proxyFilePath : String)
    (media : MediaProperties) : List String :=
  ["ffmpeg", "-y", "-hide_banner", "-loglevel", "error"]
  ++ (if useHwaccel then ["-hwaccel", "cuda"] else [])
  ++ ["-i", filePath]
  ++ (if media.hasVideoStream then
        (if useHwaccel then ["-c:v", "h264_nvenc"] else ["-c:v", "libx264"])
        ++ (if media.highestBitDepth > 8 then ["-pix_fmt", "yuv420p"] else [])
        ++ ["-maxrate", "6M", "-preset", "fast"]
        ++ (if media.isVertical then ["-vf", "scale=540:-2"] else ["-vf", "scale=960:-2"])
      else [])
  ++ (if media.hasAudioStream then
        (if media.unsupportedAudioFormat then ["-c:a", "pcm_s16le"] else [])
      else [])
  ++ [proxyFilePath]

/-- `pkg/ffmpeg.CreateConvertedOriginalCommand` (`main.go`'s
`createFfmpegCommandForOriginal` is the same code verbatim). -/
def CreateConvertedOriginalCommand (filePath : String) : List String :=
  let fileName := basePath filePath
  let parentDir := dirPath filePath
  let inputFilePath := joinPaths [parentDir, "Originals", fileName]
  ["ffmpeg", "-y", "-hide_banner", "-loglevel", "error"]
  ++ ["-i", inputFilePath, "-c:v", "copy", "-c:a", "pcm_s16le", filePath]

/-- C6: the original-conversion plan builder takes only the file path (no
media properties) and always returns exactly: overwrite, suppressed
banner, error-only logging, input `dir/Originals/base`, copy video,
force 16-bit little-endian PCM audio, output at the original path. -/
theorem createConvertedOriginalCommand_spec (p : String) :
    CreateConvertedOriginalCommand p =
      ["ffmpeg", "-y", "-hide_banner", "-loglevel", "error", "-i",
       joinPaths [dirPath p, "Originals", basePath p],
       "-c:v", "copy", "-c:a", "pcm_s16le", p] := rfl

/-! ### The two duplicated proxy-plan builders (C9) -/

/-- C9 counterexample: on a file with a video stream the two builders
disagree — the package builder emits `-maxrate 7M -preset default`, the
`main.go` builder `-maxrate 6M -preset fast`. -/
theorem proxyBuilders_not_identical :
    createFfmpegCommandForProxy "/w/a.mp4" "/w/Proxy/a.mov"
        { hasVideoStream := true, hasAudioStream := false, isVertical := false,
          unsupportedAudioFormat := false, highestBitDepth := 8 } ≠
      CreateProxyCommand "/w/a.mp4" "/w/Proxy/a.mov"
        { hasVideoStream := true, hasAudioStream := false, isVertical := false,
          unsupportedAudioFormat := false, highestBitDepth := 8 } := by
  decide

/-- Token renaming that maps the package builder's rate ceiling and preset
to the `main.go` builder's. -/
def substPreset (t : String) : String :=
  if t = "7M" then "6M" else if t = "default" then "fast" else t

/-- C9 amended: the two builders produce token-for-token identical plans
except for the bitrate-ceiling value (`7M` in the package builder, `6M`
in `main.go`) and the preset value (`default` vs `fast`), the only two
video-branch tokens the duplicates drifted apart on; in particular the
plans are identical whenever no video stream is present. -/
theorem proxyBuilders_agree_up_to_rate_and_preset
    (fp pp : String) (props : MediaProperties)
    (h1 : fp ≠ "7M") (h2 : fp ≠ "default") (h3 : pp ≠ "7M") (h4 : pp ≠ "default") :
    createFfmpegCommandForProxy fp pp props =
      (CreateProxyCommand fp pp props).map substPreset := by
  rcases props with ⟨hv, ha, iv, ua, bd⟩
  simp only [CreateProxyCommand, createFfmpegCommandForProxy,
    UseHardwareAcceleration, useHwaccel, if_true, List.map_append]
  cases hv <;> cases ha <;> cases iv <;> cases ua <;>
    by_cases hbd : bd > 8 <;>
      simp [hbd, substPreset, h1, h2, h3, h4]

/-- C9 amended, witness at a fully concrete input. -/
theorem proxyBuilders_agree_up_to_rate_and_preset_witness :
    createFfmpegCommandForProxy "/w/a.mp4" "/w/Proxy/a.mov"
        { hasVideoStream := true, hasAudioStream := true, isVertical := true,
          unsupportedAudioFormat := true, highestBitDepth := 10 } =
      (CreateProxyCommand "/w/a.mp4" "/w/Proxy/a.mov"
        { hasVideoStream := true, hasAudioStream := true, isVertical := true,
          unsupportedAudioFormat := true, highestBitDepth := 10 }).map substPreset :=
  proxyBuilders_agree_up_to_rate_and_preset "/w/a.mp4" "/w/Proxy/a.mov" _
    (by decide) (by decide) (by decide) (by decide)

/-! ### The end-to-end scenario plan (C5) -/

/-- The property record of the spec's end-to-end scenario: one video
stream (horizontal, 8-bit) and one audio stream in an unsupported
codec. -/
def scenarioProps : MediaProperties :=
  { hasVideoStream := true, hasAudioStream := true, isVertical := false,
    unsupportedAudioFormat := true, highestBitDepth := 8 }

/-- C5 counterexample: the builders place the source path verbatim in the
plan, so a source path that is literally `"-pix_fmt"` puts a `-pix_fmt`
token in the plan, refuting "for every source path ... contains no
`-pix_fmt` token" as universally stated. -/
theorem proxyPlan_scenario_counterexample :
    "-pix_fmt" ∈ CreateProxyCommand "-pix_fmt" "/w/Proxy/a.mov" scenarioProps := by
  decide

/-- C5 amended: for every source and proxy path other than the literal
token `"-pix_fmt"`, both proxy-plan builders applied to the scenario
properties (video, audio, horizontal, unsupported audio, bit depth 8)
yield a plan containing `scale=960:-2`, containing the consecutive tokens
`-c:a pcm_s16le`, containing no `-pix_fmt` token, and ending with the
proxy destination path. -/
theorem proxyPlan_scenario_tokens (fp pp : String)
    (h1 : fp ≠ "-pix_fmt") (h2 : pp ≠ "-pix_fmt") :
    ("scale=960:-2" ∈ CreateProxyCommand fp pp scenarioProps) ∧
    (["-c:a", "pcm_s16le"] <:+: CreateProxyCommand fp pp scenarioProps) ∧
    ("-pix_fmt" ∉ CreateProxyCommand fp pp scenarioProps) ∧
    ((CreateProxyCommand fp pp scenarioProps).getLast? = some pp) ∧
    ("scale=960:-2" ∈ createFfmpegCommandForProxy fp pp scenarioProps) ∧
    (["-c:a", "pcm_s16le"] <:+: createFfmpegCommandForProxy fp pp scenarioProps) ∧
    ("-pix_fmt" ∉ createFfmpegCommandForProxy fp pp scenarioProps) ∧
    ((createFfmpegCommandForProxy fp pp scenarioProps).getLast? = some pp) := by
  have hc : CreateProxyCommand fp pp scenarioProps =
      ["ffmpeg", "-y", "-hide_banner", "-loglevel", "error", "-hwaccel", "cuda",
       "-i", fp, "-c:v", "h264_nvenc", "-maxrate", "7M", "-preset", "default",
       "-vf", "scale=960:-2", "-c:a", "pcm_s16le", pp] := rfl
  have hm : createFfmpegCommandForProxy fp pp scenarioProps =
      ["ffmpeg", "-y", "-hide_banner", "-loglevel", "error", "-hwaccel", "cuda",
       "-i", fp, "-c:v", "h264_nvenc", "-maxrate", "6M", "-preset", "fast",
       "-vf", "scale=960:-2", "-c:a", "pcm_s16le", pp] := rfl
  refine ⟨by simp [hc], ?_, by simp [hc, h1.symm, h2.symm], by simp [hc],
          by simp [hm], ?_, by simp [hm, h1.symm, h2.symm], by simp [hm]⟩
  · exact ⟨["ffmpeg", "-y", "-hide_banner", "-loglevel", "error", "-hwaccel", "cuda",
       "-i", fp, "-c:v", "h264_nvenc", "-maxrate", "7M", "-preset", "default",
       "-vf", "scale=960:-2"], [pp], by rw [hc]; rfl⟩
  · exact ⟨["ffmpeg", "-y", "-hide_banner", "-loglevel", "error", "-hwaccel", "cuda",
       "-i", fp, "-c:v", "h264_nvenc", "-maxrate", "6M", "-preset", "fast",
       "-vf", "scale=960:-2"], [pp], by rw [hm]; rfl⟩

/-- C5 amended, witness at a fully concrete input. -/
theorem proxyPlan_scenario_tokens_witness :
    ("scale=960:-2" ∈ CreateProxyCommand "/w/a.mp4" "/w/Proxy/a.mov" scenarioProps) ∧
    (["-c:a", "pcm_s16le"] <:+: CreateProxyCommand "/w/a.mp4" "/w/Proxy/a.mov" scenarioProps) ∧
    ("-pix_fmt" ∉ CreateProxyCommand "/w/a.mp4" "/w/Proxy/a.mov" scenarioProps) ∧
    ((CreateProxyCommand "/w/a.mp4" "/w/Proxy/a.mov" scenarioProps).getLast? =
      some "/w/Proxy/a.mov") ∧
    ("scale=960:-2" ∈ createFfmpegCommandForProxy "/w/a.mp4" "/w/Proxy/a.mov" scenarioProps) ∧
    (["-c:a", "pcm_s16le"] <:+:
      createFfmpegCommandForProxy "/w/a.mp4" "/w/Proxy/a.mov" scenarioProps) ∧
    ("-pix_fmt" ∉ createFfmpegCommandForProxy "/w/a.mp4" "/w/Proxy/a.mov" scenarioProps) ∧
    ((createFfmpegCommandForProxy "/w/a.mp4" "/w/Proxy/a.mov" scenarioProps).getLast? =
      some "/w/Proxy/a.mov") :=
  proxyPlan_scenario_tokens "/w/a.mp4" "/w/Proxy/a.mov" (by decide) (by decide)

/-! ## Effectful workflows

`GenerateProxy` (`pkg/proxy/proxy.go`; `main.go`'s `processFile` is the
same control flow) and `ProcessUnsupportedAudio` (`pkg/audio`;
`main.go`'s `processUnsupportedAudioOriginal` likewise) perform
filesystem and subprocess side effects. They are embedded as explicit
state passing over an abstract `World`:

* `fsExists p` — whether `os.Stat(p)` succeeds;
* `probe p` — the `ffprobe` result (`none` = error), as in `GetMediaInfo`;
* `resolve pf` — the external bit-depth lookup fed to the analyzer;
* `execOk cmd` — whether running the plan `cmd` exits successfully.

`MkdirAll` and `Rename` are modelled as updates of `fsExists`
(OS-level failures of these two calls — straightforward early-return
error branches in the source — are outside the model). Each function
additionally returns the ordered trace of effects it performed. -/

/-- The abstract outside world the workflows interact with. -/
structure World where
  fsExists : String → Bool
  probe : String → Option MediaInfo
  resolve : String → Option Int
  execOk : List String → Bool

/-- `os.MkdirAll`: the directory exists afterwards. -/
def World.mkdir (w : World) (p : String) : World :=
  { w with fsExists := fun q => if q = p then true else w.fsExists q }

/-- `os.Rename src dst`: `src` vanishes, `dst` appears. -/
def World.rename (w : World) (src dst : String) : World :=
  { w with fsExists := fun q => if q = dst then true else if q = src then false else w.fsExists q }

/-- One observable side effect of a workflow run. -/
inductive Effect where
  | probed (path : String)
  | madeDir (path : String)
  | ranCommand (cmd : List String)
  | renamed (src dst : String)
deriving DecidableEq, Repr

/-- Error outcomes of `GenerateProxy`, one per `return false, err` site. -/
inductive ProxyError where
  | mediaInfoError
  | noStreams
  | noAVStream
  | proxyDirError
  | emptyCommand
  | execError
deriving DecidableEq, Repr

/-- `CreateProxyDirectory`: stat the parent (error if absent), return the
`Proxy` subdirectory if it already exists, otherwise create it. -/
def CreateProxyDirectory (w : World) (filePath : String) :
    Option String × World × List Effect :=
  let parentDir := dirPath filePath
  if w.fsExists parentDir then
    let proxyDir := joinPaths [parentDir, "Proxy"]
    if w.fsExists proxyDir then (some proxyDir, w, [])
    else (some proxyDir, w.mkdir proxyDir, [Effect.madeDir proxyDir])
  else (none, w, [])

/-- The proxy destination computed by `GenerateProxy`:
`dir/Proxy/<base name without extension>.mov` (`fileName` is the
directory entry's name, `filePath` its full path). -/
def proxyFilePathFor (filePath fileName : String) : String :=
  joinPaths [dirPath filePath, "Proxy",
    trimSuffix fileName (extName fileName) ++ ".mov"]

/-- `proxy.GenerateProxy`: skip when the proxy exists; probe; reject
stream-less and video-and-audio-less files; prepare the directory; build
the plan, reject an empty one; run it. Returns Go's `(bool, error)` pair
together with the final world and the effect trace. -/
def GenerateProxy (w : World) (filePath fileName : String) :
    (Bool × Option ProxyError) × World × List Effect :=
  let proxyFilePath := proxyFilePathFor filePath fileName
  if w.fsExists proxyFilePath then ((false, none), w, [])
  else
    match w.probe filePath with
    | none => ((false, some ProxyError.mediaInfoError), w, [Effect.probed filePath])
    | some info =>
      if info.streams.length = 0 then
        ((false, some ProxyError.noStreams), w, [Effect.probed filePath])
      else
        let props := AnalyzeMediaInfo w.resolve info
        if !props.hasVideoStream && !props.hasAudioStream then
          ((false, some ProxyError.noAVStream), w, [Effect.probed filePath])
        else
          match CreateProxyDirectory w filePath with
          | (none, w1, eff1) =>
            ((false, some ProxyError.proxyDirError), w1, Effect.probed filePath :: eff1)
          | (some _, w1, eff1) =>
            let cmd := CreateProxyCommand filePath proxyFilePath props
            if cmd.length = 0 then
              ((false, some ProxyError.emptyCommand), w1, Effect.probed filePath :: eff1)
            else if w1.execOk cmd then
              ((true, none), w1, Effect.probed filePath :: eff1 ++ [Effect.ranCommand cmd])
            else
              ((false, some ProxyError.execError), w1,
                Effect.probed filePath :: eff1 ++ [Effect.ranCommand cmd])

/-- Error outcomes of `ProcessUnsupportedAudio`. -/
inductive AudioError where
  | parentStatError
  | originalAlreadyExists
  | emptyCommand
  | execError
deriving DecidableEq, Repr

/-- `audio.ProcessUnsupportedAudio`: stat the parent; ensure the
`Originals` directory; fail if a same-named file already sits there;
relocate the source; build and run the original-conversion plan. -/
def ProcessUnsupportedAudio (w : World) (filePath : String) :
    Option AudioError × World × List Effect :=
  let parentDir := dirPath filePath
  if w.fsExists parentDir then
    let originalsDir := joinPaths [parentDir, "Originals"]
    let step1 : World × List Effect :=
      if w.fsExists originalsDir then (w, [])
      else (w.mkdir originalsDir, [Effect.madeDir originalsDir])
    let w1 := step1.1
    let inputFilePath := joinPaths [originalsDir, basePath filePath]
    if w1.fsExists inputFilePath then
      (some AudioError.originalAlreadyExists, w1, step1.2)
    else
      let w2 := w1.rename filePath inputFilePath
      let eff2 := step1.2 ++ [Effect.renamed filePath inputFilePath]
      let cmd := CreateConvertedOriginalCommand filePath
      if cmd.length = 0 then (some AudioError.emptyCommand, w2, eff2)
      else if w2.execOk cmd then (none, w2, eff2 ++ [Effect.ranCommand cmd])
      else (some AudioError.execError, w2, eff2 ++ [Effect.ranCommand cmd])
  else (some AudioError.parentStatError, w, [])

theorem World.mkdir_fsExists_mono (w : World) (p q : String)
    (h : w.fsExists q = true) : (w.mkdir p).fsExists q = true := by
  simp only [World.mkdir]
  split <;> simp [h]

/-- C7: when the computed proxy path `dir/Proxy/<base>.mov` already
exists, the proxy workflow returns `changed = false` with no error, with
an empty effect trace (no probe, no directory creation, no plan
execution) and leaves the world untouched. -/
theorem generateProxy_skips_existing (w : World) (filePath fileName : String)
    (h : w.fsExists (proxyFilePathFor filePath fileName) = true) :
    GenerateProxy w filePath fileName = ((false, none), w, []) := by
  unfold GenerateProxy
  simp [h]

/-- C7 witness: a world in which every path exists makes the workflow
skip immediately. -/
theorem generateProxy_skips_existing_witness :
    GenerateProxy ⟨fun _ => true, fun _ => none, fun _ => none, fun _ => true⟩
        "/w/a.mp4" "a.mp4" =
      ((false, none), ⟨fun _ => true, fun _ => none, fun _ => none, fun _ => true⟩, []) :=
  generateProxy_skips_existing _ "/w/a.mp4" "a.mp4" rfl

/-- C8: when a same-named file already sits in the parent's `Originals`
subdirectory, audio remediation fails with `originalAlreadyExists`,
performs no rename and runs no transcode, and the source file still
exists at its original path. -/
theorem processUnsupportedAudio_existing_original (w : World) (filePath : String)
    (hparent : w.fsExists (dirPath filePath) = true)
    (hexists : w.fsExists
      (joinPaths [joinPaths [dirPath filePath, "Originals"], basePath filePath]) = true) :
    (ProcessUnsupportedAudio w filePath).1 = some AudioError.originalAlreadyExists ∧
    (∀ src dst, Effect.renamed src dst ∉ (ProcessUnsupportedAudio w filePath).2.2) ∧
    (∀ cmd, Effect.ranCommand cmd ∉ (ProcessUnsupportedAudio w filePath).2.2) ∧
    (w.fsExists filePath = true →
      (ProcessUnsupportedAudio w filePath).2.1.fsExists filePath = true) := by
  unfold ProcessUnsupportedAudio
  by_cases hdir : w.fsExists (joinPaths [dirPath filePath, "Originals"]) = true
  · simp [hparent, hdir, hexists]
  · have hdir' : w.fsExists (joinPaths [dirPath filePath, "Originals"]) = false :=
      Bool.eq_false_iff.mpr hdir
    have h1 : (w.mkdir (joinPaths [dirPath filePath, "Originals"])).fsExists
        (joinPaths [joinPaths [dirPath filePath, "Originals"], basePath filePath]) = true :=
      World.mkdir_fsExists_mono w _ _ hexists
    refine ⟨?_, ?_, ?_, ?_⟩
    · simp [hparent, hdir', h1]
    · simp [hparent, hdir', h1]
    · simp [hparent, hdir', h1]
    · intro hsrc
      simp only [hparent, hdir', h1, Bool.false_eq_true, if_false, if_true, ite_true, ite_false]
      simp [World.mkdir_fsExists_mono w _ _ hsrc]

/-- C8 witness: a world where everything exists, on the source path
`/w/a.mp4`. -/
theorem processUnsupportedAudio_existing_original_witness :
    (ProcessUnsupportedAudio ⟨fun _ => true, fun _ => none, fun _ => none, fun _ => true⟩
        "/w/a.mp4").1 = some AudioError.originalAlreadyExists ∧
    (∀ src dst, Effect.renamed src dst ∉
      (ProcessUnsupportedAudio ⟨fun _ => true, fun _ => none, fun _ => none, fun _ => true⟩
        "/w/a.mp4").2.2) ∧
    (∀ cmd, Effect.ranCommand cmd ∉
      (ProcessUnsupportedAudio ⟨fun _ => true, fun _ => none, fun _ => none, fun _ => true⟩
        "/w/a.mp4").2.2) ∧
    ((⟨fun _ => true, fun _ => none, fun _ => none, fun _ => true⟩ : World).fsExists
        "/w/a.mp4" = true →
      (ProcessUnsupportedAudio ⟨fun _ => true, fun _ => none, fun _ => none, fun _ => true⟩
        "/w/a.mp4").2.1.fsExists "/w/a.mp4" = true) :=
  processUnsupportedAudio_existing_original
    ⟨fun _ => true, fun _ => none, fun _ => none, fun _ => true⟩ "/w/a.mp4" rfl rfl

/-- C10: every proxy plan is non-empty, starts with the `ffmpeg` program
token and ends with the proxy destination path; hence the workflow's
"could not generate ffmpeg command" branch, guarded by the plan being
empty, can never fire. -/
theorem createProxyCommand_wellFormed :
    (∀ (fp pp : String) (props : MediaProperties),
      CreateProxyCommand fp pp props ≠ [] ∧
      (CreateProxyCommand fp pp props).head? = some "ffmpeg" ∧
      (CreateProxyCommand fp pp props).getLast? = some pp) ∧
    (∀ (w : World) (filePath fileName : String),
      (GenerateProxy w filePath fileName).1.2 ≠ some ProxyError.emptyCommand) := by
  have hne : ∀ (fp pp : String) (props : MediaProperties),
      CreateProxyCommand fp pp props ≠ [] := by
    intro fp pp props
    unfold CreateProxyCommand
    exact List.append_ne_nil_of_right_ne_nil _ (by simp)
  constructor
  · intro fp pp props
    refine ⟨hne fp pp props, rfl, ?_⟩
    unfold CreateProxyCommand
    exact List.getLast?_concat _
  · intro w filePath fileName
    by_cases hpx : w.fsExists (proxyFilePathFor filePath fileName) = true
    · simp [GenerateProxy, hpx]
    · unfold GenerateProxy
      rw [if_neg hpx]
      cases hpro : w.probe filePath with
      | none => simp
      | some info =>
        dsimp only
        by_cases hs : info.streams.length = 0
        · simp [hs]
        · rw [if_neg hs]
          by_cases hav : (!(AnalyzeMediaInfo w.resolve info).hasVideoStream &&
              !(AnalyzeMediaInfo w.resolve info).hasAudioStream) = true
          · simp [hav]
          · rw [if_neg hav]
            rcases hdir : CreateProxyDirectory w filePath with ⟨od, w1, eff1⟩
            cases od with
            | none => simp [hdir]
            | some d =>
              simp only [hdir]
              by_cases hcmd : (CreateProxyCommand filePath
                  (proxyFilePathFor filePath fileName)
                  (AnalyzeMediaInfo w.resolve info)).length = 0
              · exact absurd (List.length_eq_zero.mp hcmd) (hne _ _ _)
              · rw [if_neg hcmd]
                by_cases hex : w1.execOk (CreateProxyCommand filePath
                    (proxyFilePathFor filePath fileName)
                    (AnalyzeMediaInfo w.resolve info)) = true <;>
                  simp [hex]

/-! ## Pixel-format catalog parsing (`GetBitDepth`)

`GetBitDepth` splits the `ffmpeg -pix_fmts` output into lines and matches
each against the anchored Go regular expression

    ^.{5}\s(?<name>[^\r\n\s=]*)\s*(?P<nb_components>[0-9])\s*(?P<bpp>[0-9]*)\s*(?P<bit_depth>(?:[0-9]+-)*[0-9]+)$

The pattern is embedded as a regex AST and executed by a
continuation-passing backtracking matcher with the leftmost-greedy
submatch semantics Go's engine guarantees; being `^...$`-anchored, a
match must span the whole line. Numbered capture groups follow
`SubexpNames` order: 1 = name, 2 = nb_components, 3 = bpp,
4 = bit_depth (the `(?:...)` group captures nothing). -/

/-- Regex AST: empty word, single-character class, concatenation, greedy
Kleene star, and numbered capture group. -/
inductive Re where
  | eps : Re
  | cls : (Char → Bool) → Re
  | seq : Re → Re → Re
  | star : Re → Re
  | group : Nat → Re → Re

/-- `r{n}`: `n`-fold concatenation. -/
def reRep (r : Re) : Nat → Re
  | 0 => Re.eps
  | Nat.succ n => Re.seq r (reRep r n)

/-- `r+` = `r r*` (greedy). -/
def rePlus (r : Re) : Re := Re.seq r (Re.star r)

/-- Backtracking matcher in continuation-passing style. `caps` is the
capture list (later entries shadow earlier ones, `lookup` finds the most
recent). Greedy star: try one more body iteration first, fall back to the
continuation; an iteration must consume input, as in RE2. Fuel bounds the
call depth; every use below supplies more than the matcher can consume. -/
def matchRe : Nat → Re → List Char → List (Nat × String) →
    (List Char → List (Nat × String) → Option (List (Nat × String))) →
    Option (List (Nat × String))
  | 0, _, _, _, _ => none
  | Nat.succ _, Re.eps, s, caps, k => k s caps
  | Nat.succ _, Re.cls p, s, caps, k =>
    match s with
    | [] => none
    | c :: rest => if p c then k rest caps else none
  | Nat.succ fuel, Re.seq a b, s, caps, k =>
    matchRe fuel a s caps (fun s1 caps1 => matchRe fuel b s1 caps1 k)
  | Nat.succ fuel, Re.star a, s, caps, k =>
    match matchRe fuel a s caps (fun s1 caps1 =>
        if s1.length < s.length then matchRe fuel (Re.star a) s1 caps1 k else none) with
    | some res => some res
    | none => k s caps
  | Nat.succ fuel, Re.group i a, s, caps, k =>
    matchRe fuel a s caps (fun s1 caps1 =>
      k s1 ((i, String.mk (s.take (s.length - s1.length))) :: caps1))

/-- Go regexp `.` (no `s` flag): any character but newline. -/
def notNL (c : Char) : Bool := c != '\n'

/-- Go regexp `\s` = `[\t\n\f\r ]`. -/
def goSpace (c : Char) : Bool :=
  c == '\t' || c == '\n' || c == '\x0c' || c == '\r' || c == ' '

/-- The class `[^\r\n\s=]` of the `name` group. -/
def nameChar (c : Char) : Bool := !(goSpace c || c == '=')

/-- Go regexp `[0-9]`. -/
def digitChar (c : Char) : Bool := '0' ≤ c && c ≤ '9'

/-- The AST of `pixelFormatExpStr` (see the section comment). -/
def pixelFormatExp : Re :=
  Re.seq (reRep (Re.cls notNL) 5)
  (Re.seq (Re.cls goSpace)
  (Re.seq (Re.group 1 (Re.star (Re.cls nameChar)))
  (Re.seq (Re.star (Re.cls goSpace))
  (Re.seq (Re.group 2 (Re.cls digitChar))
  (Re.seq (Re.star (Re.cls goSpace))
  (Re.seq (Re.group 3 (Re.star (Re.cls digitChar)))
  (Re.seq (Re.star (Re.cls goSpace))
          (Re.group 4 (Re.seq (Re.star (Re.seq (rePlus (Re.cls digitChar))
                                               (Re.cls (fun c => c == '-'))))
                              (rePlus (Re.cls digitChar)))))))))))

/-- `pixelFormatExp.FindStringSubmatch(line)`: the pattern is anchored on
both sides, so a match consumes the entire line; `none` is Go's `nil`
(no match). -/
def findStringSubmatch (line : String) : Option (List (Nat × String)) :=
  matchRe ((line.length + 2) * 64) pixelFormatExp line.data []
    (fun s caps => if s.isEmpty then some caps else none)

/-- `processPixelFormatMatch`: read the named groups out of the match
(Go builds a name→submatch map; a group that matched the empty string is
present with value `""`, so the two `ok` tests always pass on a match of
this pattern), compare the name, convert the component count (an `Atoi`
failure is an error), truncate a multi-component bit-depth field at the
first `-`, and convert it with `Atoi`'s error ignored (zero value on
failure). -/
def processPixelFormatMatch (caps : List (Nat × String)) (pixelFormat : String) :
    Option Int :=
  let name := (caps.lookup 1).getD ""
  let nbComponentsStr := (caps.lookup 2).getD ""
  let bitDepthStr := (caps.lookup 4).getD ""
  if name = pixelFormat then
    match goAtoi nbComponentsStr with
    | none => none
    | some nbComponentsInt =>
      let bitDepthStr := if nbComponentsInt > 1 then (goSplit bitDepthStr '-').headD ""
                         else bitDepthStr
      some ((goAtoi bitDepthStr).getD 0)
  else none

/-- The per-line loop of `GetBitDepth`: first line that both matches the
pattern and processes without error wins. -/
def matchCatalogLines (pixelFormat : String) : List String → Option Int
  | [] => none
  | line :: rest =>
    match findStringSubmatch line with
    | none => matchCatalogLines pixelFormat rest
    | some caps =>
      match processPixelFormatMatch caps pixelFormat with
      | some bitDepth => some bitDepth
      | none => matchCatalogLines pixelFormat rest

/-- `GetBitDepth`, with the external `ffmpeg -hide_banner -pix_fmts`
output supplied as the `catalogOutput` argument; `none` is the error
result. -/
def GetBitDepth (catalogOutput : String) (pixelFormat : String) : Option Int :=
  matchCatalogLines pixelFormat (goSplit catalogOutput '\n')

/-- C10 witness: the guarantees at a concrete input (and a concrete world
for the unreachability part). -/
theorem createProxyCommand_wellFormed_witness :
    (CreateProxyCommand "/w/a.mp4" "/w/Proxy/a.mov" scenarioProps ≠ [] ∧
      (CreateProxyCommand "/w/a.mp4" "/w/Proxy/a.mov" scenarioProps).head? = some "ffmpeg" ∧
      (CreateProxyCommand "/w/a.mp4" "/w/Proxy/a.mov" scenarioProps).getLast? =
        some "/w/Proxy/a.mov") ∧
    (GenerateProxy ⟨fun _ => false, fun _ => none, fun _ => none, fun _ => false⟩
        "/w/a.mp4" "a.mp4").1.2 ≠ some ProxyError.emptyCommand :=
  ⟨createProxyCommand_wellFormed.1 "/w/a.mp4" "/w/Proxy/a.mov" scenarioProps,
   createProxyCommand_wellFormed.2 _ "/w/a.mp4" "a.mp4"⟩

/-- C2 counterexample: on the claimed catalog line the resolution FAILS.
After `.{5}` eats the five dashes and `\s` one space, the line still has
two spaces before `yuv420p`; the `name` class `[^\r\n\s=]` cannot match a
space, so `name` captures the empty string, and the mandatory single
digit `[0-9]` then lands on the `y` of `yuv420p`. No backtracking
alternative exists, the anchored pattern rejects the line, and
`GetBitDepth` returns its "pixel format not found" error. -/
theorem getBitDepth_claimed_line_fails :
    GetBitDepth "-----   yuv420p          3            12        8-8-8" "yuv420p" = none := by
  decide

/-- C2 amended: on a catalog line with a single space between the
5-character flags field and the format name — the shape `ffmpeg
-pix_fmts` actually prints — resolving `yuv420p` succeeds with bit depth
8: the component count 3 exceeds 1, so only the first `-`-separated token
of the `8-8-8` bit-depth field is used. -/
theorem getBitDepth_single_space_line :
    GetBitDepth "----- yuv420p          3            12        8-8-8" "yuv420p" = some 8 := by
  decide

end MediaProcessor
